import Mathlib

/-!
Verification development for the nodeterraform repository: a shallow Lean
embedding of the version-comparison, cache-lookup, platform-mapping,
archive-download, provisioning and process-supervision logic of the
JavaScript sources, together with theorems settling the specification
claims about them.

Conventions of the embedding:
* JavaScript strings are modelled as Lean `String` / `List Char`
  (`String.prototype.toLowerCase` is modelled on the ASCII range, which
  covers every string the mapping tables compare against).
* JavaScript numbers appearing as version components are modelled as `Int`
  (`parseInt(s, 10)` yields `Option Int`, `none` standing for `NaN`).
* Filesystem and network effects are modelled by explicit state values
  (directory listings, HTTP event lists) passed to the translated
  functions.
-/

/-! ## JavaScript primitives -/

/-- Numeric value of a list of decimal digit characters. -/
def digitsVal (ds : List Char) : Nat :=
  ds.foldl (fun acc c => acc * 10 + (c.toNat - 48)) 0

/-- Longest decimal-digit prefix, as a number; `none` when there is no digit
(the `NaN` outcome of `parseInt`). -/
def parseDigits (cs : List Char) : Option Nat :=
  let ds := cs.takeWhile Char.isDigit
  if ds.isEmpty then none else some (digitsVal ds)

/-- Optional sign followed by a digit prefix, as in `parseInt(s, 10)` after
whitespace stripping. -/
def parseSignAndDigits : List Char → Option Int
  | '-' :: t => (parseDigits t).map (fun n => -(n : Int))
  | '+' :: t => (parseDigits t).map (fun n => (n : Int))
  | t => (parseDigits t).map (fun n => (n : Int))

/-- Model of JavaScript `parseInt(s, 10)`: skip leading whitespace, read an
optional sign and then the longest digit prefix; `none` models `NaN`. -/
def parseIntChars (cs : List Char) : Option Int :=
  parseSignAndDigits (cs.dropWhile (fun c => c.isWhitespace))

/-- Model of `String.prototype.split('.')` on the character list of a
string: splits at every `'.'`, keeping empty pieces, and yields `[[]]` for
the empty string — the same shape JavaScript produces. -/
def splitDot : List Char → List (List Char)
  | [] => [[]]
  | c :: cs =>
    if c = '.' then [] :: splitDot cs
    else
      match splitDot cs with
      | [] => [[c]]
      | h :: t => (c :: h) :: t

/-- ASCII model of lowering one character, as `toLowerCase` acts on the
ASCII range: `'A'`–`'Z'` shift by 32, everything else is unchanged. -/
def lowerChar (c : Char) : Char :=
  if 65 ≤ c.toNat ∧ c.toNat ≤ 90 then Char.ofNat (c.toNat + 32) else c

/-- ASCII model of `String.prototype.toLowerCase`. -/
def toLowerCaseJs (s : String) : String :=
  String.mk (s.data.map lowerChar)

/-! ## compareSemver (src/index.js lines 16-26)

```js
function compareSemver(a, b) {
  const pa = a.split('.').map((n) => parseInt(n, 10));
  const pb = b.split('.').map((n) => parseInt(n, 10));
  for (let i = 0; i < Math.max(pa.length, pb.length); i++) {
    const na = pa[i] || 0;
    const nb = pb[i] || 0;
    if (na > nb) return 1;
    if (na < nb) return -1;
  }
  return 0;
}
```
-/

/-- The component array `a.split('.').map((n) => parseInt(n, 10))`,
with `none` standing for a `NaN` entry. -/
def semverKey (s : String) : List (Option Int) :=
  (splitDot s.data).map parseIntChars

/-- The value `pa[i] || 0`: out-of-range (`undefined`) and `NaN` entries
both collapse to `0` (and `-0`/`0` is `0` already in `Int`). -/
def compAt (l : List (Option Int)) (i : Nat) : Int :=
  match l.get? i with
  | some (some n) => n
  | _ => 0

/-- The comparison loop of `compareSemver`, running from index `i` for
`fuel` further iterations (the source runs it for `max pa.length pb.length`
iterations from index 0). -/
def cmpFrom (pa pb : List (Option Int)) (i : Nat) : Nat → Int
  | 0 => 0
  | fuel + 1 =>
    if compAt pa i > compAt pb i then 1
    else if compAt pa i < compAt pb i then -1
    else cmpFrom pa pb (i + 1) fuel

/-- Model of `compareSemver`: 1 if `a > b`, -1 if `a < b`, 0 if equal. -/
def compareSemver (a b : String) : Int :=
  cmpFrom (semverKey a) (semverKey b) 0
    (max (semverKey a).length (semverKey b).length)

example : compareSemver "1.12" "1.12.0" = 0 := by decide
example : compareSemver "1.2.3" "1.10.0" = -1 := by decide
example : compareSemver "2.0.0" "1.99.99" = 1 := by decide
example : compareSemver "abc" "0.0.0" = 0 := by decide

/-! ## Platform mapper (terraform-downloader.js, mapOSArchToTerraform)

The source lowercases each argument and switches over the result, throwing
`Unsupported operating system: <os>` / `Unsupported architecture: <arch>`
when no case matches; the two switches are split into `mapOS` and `mapArch`
below and composed in source order (the OS switch runs first, so an
unsupported OS wins over an unsupported architecture). -/

/-- Decidable equality for `Except`, used to evaluate the mapper on
concrete inputs. -/
instance {α β : Type} [DecidableEq α] [DecidableEq β] : DecidableEq (Except α β) := fun x y =>
  match x, y with
  | .ok a, .ok b =>
    if h : a = b then isTrue (by rw [h]) else isFalse (by intro he; cases he; exact h rfl)
  | .error a, .error b =>
    if h : a = b then isTrue (by rw [h]) else isFalse (by intro he; cases he; exact h rfl)
  | .ok _, .error _ => isFalse (by intro he; cases he)
  | .error _, .ok _ => isFalse (by intro he; cases he)

/-- Distributor-vocabulary platform pair returned on success. -/
structure PlatformTarget where
  os : String
  arch : String
deriving DecidableEq, Repr

/-- The OS switch of `mapOSArchToTerraform`, on `detectedOS.toLowerCase()`;
`solaris` and `sunos` share a case. -/
def mapOS (detectedOS : String) : Except String String :=
  if toLowerCaseJs detectedOS = "windows" then .ok "windows"
  else if toLowerCaseJs detectedOS = "macos" then .ok "darwin"
  else if toLowerCaseJs detectedOS = "linux" then .ok "linux"
  else if toLowerCaseJs detectedOS = "freebsd" then .ok "freebsd"
  else if toLowerCaseJs detectedOS = "openbsd" then .ok "openbsd"
  else if toLowerCaseJs detectedOS = "solaris" ∨ toLowerCaseJs detectedOS = "sunos" then .ok "solaris"
  else .error ("Unsupported operating system: " ++ detectedOS)

/-- The architecture switch of `mapOSArchToTerraform`, on
`detectedArch.toLowerCase()`; fall-through cases share a target. -/
def mapArch (detectedArch : String) : Except String String :=
  if toLowerCaseJs detectedArch = "x64" ∨ toLowerCaseJs detectedArch = "x86_64" then .ok "amd64"
  else if toLowerCaseJs detectedArch = "x86" ∨ toLowerCaseJs detectedArch = "ia32" then .ok "386"
  else if toLowerCaseJs detectedArch = "arm64" ∨ toLowerCaseJs detectedArch = "aarch64" then .ok "arm64"
  else if toLowerCaseJs detectedArch = "arm" then .ok "arm"
  else .error ("Unsupported architecture: " ++ detectedArch)

/-- Model of `mapOSArchToTerraform(detectedOS, detectedArch)`: the OS
switch runs first and its exception wins, then the architecture switch,
then `{ os, arch }` is returned. -/
def mapOSArchToTerraform (detectedOS detectedArch : String) : Except String PlatformTarget :=
  match mapOS detectedOS with
  | .error e => .error e
  | .ok tos =>
    match mapArch detectedArch with
    | .error e => .error e
    | .ok tarch => .ok ⟨tos, tarch⟩

/-- The supported normalized OS names, paired with their targets, exactly
as listed by the switch cases. -/
def osTablePairs : List (String × String) :=
  [("windows", "windows"), ("macos", "darwin"), ("linux", "linux"),
   ("freebsd", "freebsd"), ("openbsd", "openbsd"), ("solaris", "solaris"),
   ("sunos", "solaris")]

/-- The supported normalized architecture names, paired with their targets. -/
def archTablePairs : List (String × String) :=
  [("x64", "amd64"), ("x86_64", "amd64"), ("x86", "386"), ("ia32", "386"),
   ("arm64", "arm64"), ("aarch64", "arm64"), ("arm", "arm")]

/-- The supported normalized OS names. -/
def osKeys : List String := osTablePairs.map Prod.fst

/-- The supported normalized architecture names. -/
def archKeys : List String := archTablePairs.map Prod.fst

/-- Capitalized OS names produced by the node branch of `detectOSAndArch`
(os-detector.js), paired with their lowercase forms. -/
def detectorOSNames : List (String × String) :=
  [("Windows", "windows"), ("macOS", "macos"), ("Linux", "linux"),
   ("FreeBSD", "freebsd"), ("OpenBSD", "openbsd"), ("SunOS", "sunos")]

example : mapOSArchToTerraform "macOS" "arm64" = .ok ⟨"darwin", "arm64"⟩ := by decide
example : (mapOSArchToTerraform "beos" "x64").isOk = false := by decide

/-! ## Archive fetcher (terraform-downloader.js, downloadFile)

```js
https.get(url, (response) => {
  if (response.statusCode === 302 || response.statusCode === 301) {
    file.close(); fs.unlinkSync(outputPath);
    return downloadFile(response.headers.location, outputPath).then(resolve).catch(reject);
  }
  if (response.statusCode !== 200) {
    file.close(); fs.unlinkSync(outputPath);
    return reject(new Error(`HTTP ...`));
  }
  response.pipe(file);
  file.on('finish', () => { file.close(); resolve(outputPath); });
}).on('error', (err) => { file.close(); fs.unlinkSync(outputPath); reject(err); });
```

Each `https.get` consumes the next event of a server-behaviour list; the
redirect branch does not inspect the `Location` header at all — it just
recurses with it as the next URL, which in this model means consuming the
next event. The destination file state is tracked explicitly. -/

/-- One network interaction: a complete HTTP response (status, optional
`Location` header, body bytes) or a network-level failure of the request. -/
inductive NetEvent where
  | resp (status : Nat) (location : Option String) (body : List Nat)
  | netError
deriving DecidableEq, Repr

/-- State of the destination path when `downloadFile` settles. -/
inductive FileOutcome where
  | absent
  | content (bytes : List Nat)
deriving DecidableEq, Repr

/-- How the `downloadFile` promise settles. -/
inductive DlResult where
  | ok
  | errHttp (status : Nat)
  | errNet
deriving DecidableEq, Repr

/-- Model of `downloadFile`: follows the branch structure above on the
event list; `none` means no response ever arrives (the promise never
settles). On rejection the partial file has been `unlinkSync`-ed. -/
def downloadFile : List NetEvent → Option (DlResult × FileOutcome)
  | [] => none
  | NetEvent.netError :: _ => some (.errNet, .absent)
  | NetEvent.resp status _loc body :: rest =>
    if status = 302 ∨ status = 301 then downloadFile rest
    else if status ≠ 200 then some (.errHttp status, .absent)
    else some (.ok, .content body)

/-- A response that `downloadFile` follows as a redirect, additionally
required (as in the claims) to carry a `Location` header. -/
def followedRedirect (e : NetEvent) : Bool :=
  match e with
  | NetEvent.resp s loc _ => (s == 301 || s == 302) && loc.isSome
  | NetEvent.netError => false

example : downloadFile [NetEvent.resp 302 (some "u") [], NetEvent.resp 200 none [1, 2]] =
    some (.ok, .content [1, 2]) := by decide
example : downloadFile [NetEvent.resp 404 none []] = some (.errHttp 404, .absent) := by decide

/-! ## Provisioning orchestrator (terraform-downloader.js, downloadTerraform)

The whole body runs in one `try`; the `catch` prints the message and calls
`process.exit(1)` directly, so no rejection ever reaches the caller. The
model fixes `extract = true` (the value used by `ensureTerraform`) and
records which steps would fail as explicit booleans. -/

/-- Which steps of a `downloadTerraform(version)` run succeed. -/
structure DtEnv where
  platformSupported : Bool
  zipOnDisk : Bool
  fetchOk : Bool
  extractOk : Bool
  binaryAfterExtract : Bool
deriving DecidableEq, Repr

/-- How a call to `downloadTerraform` concludes, from the caller's point of
view: a resolved path, a rejection reaching the caller, or a direct
`process.exit`. -/
inductive ProcOutcome where
  | ret (p : String)
  | raise (msg : String)
  | exitProcess (code : Nat)
deriving DecidableEq, Repr

/-- Discriminator: did the call reject/throw to its caller? -/
def isRaise : ProcOutcome → Bool
  | .raise _ => true
  | _ => false

/-- The extract-and-finalize tail of `downloadTerraform` (reached directly
when the zip already exists, or after a successful fetch); every `throw`
site lands in the shared `catch`, which exits the process with code 1. -/
def runExtract (env : DtEnv) : ProcOutcome :=
  if env.extractOk = false then .exitProcess 1
  else if env.binaryAfterExtract then .ret "terraform"
  else .exitProcess 1

/-- Model of `downloadTerraform` with `extract = true`: platform mapping,
then fetch (skipped when the zip is already on disk), then extraction; any
failure is caught in-function and turns into `process.exit(1)`. -/
def downloadTerraformRun (env : DtEnv) : ProcOutcome :=
  if env.platformSupported = false then .exitProcess 1
  else if env.zipOnDisk then runExtract env
  else if env.fetchOk = false then .exitProcess 1
  else runExtract env

/-! ## Version resolver (index script: readLatestCache,
getLatestTerraformVersionCached)

```js
function readLatestCache() {
  try {
    if (!fs.existsSync(LATEST_CACHE_FILE)) return null;
    const stat = fs.statSync(LATEST_CACHE_FILE);
    const age = Date.now() - stat.mtimeMs;
    const data = JSON.parse(fs.readFileSync(LATEST_CACHE_FILE, 'utf8'));
    return { data, fresh: age < ONE_HOUR_MS };
  } catch (_) { return null; }
}
```

The cache file is modelled by its observable attributes; the remote GitHub
lookup is modelled by an oracle giving the outcome of the `releases/latest`
request and of the `tags` fallback, and the model counts how many times the
remote lookup procedure runs. -/

/-- Observable state of `~/.ntf/latest-version.json`. -/
structure LatestCacheFile where
  present : Bool
  ageMs : Nat
  parseOk : Bool
  version : Option String
deriving DecidableEq, Repr

/-- The freshness TTL, `60 * 60 * 1000` milliseconds. -/
def ONE_HOUR_MS : Nat := 60 * 60 * 1000

/-- What `readLatestCache` returns when it does not return `null`. -/
structure LatestCacheView where
  data : Option String
  fresh : Bool
deriving DecidableEq, Repr

/-- Model of `readLatestCache`: `none` for a missing or unparsable file,
otherwise the version field plus the mtime-age freshness flag. -/
def readLatestCache (f : LatestCacheFile) : Option LatestCacheView :=
  if f.present = false then none
  else if f.parseOk = false then none
  else some ⟨f.version, decide (f.ageMs < ONE_HOUR_MS)⟩

/-- Model of `normalizeVersion`: `null`/empty in, `null` out; otherwise one
leading `v`/`V` is stripped. -/
def normalizeVersion (v : Option String) : Option String :=
  match v with
  | none => none
  | some s =>
    if s = "" then none
    else
      match s.data with
      | c :: cs => if c = 'v' ∨ c = 'V' then some (String.mk cs) else some s
      | [] => some s

/-- Outcome oracle for the two GitHub requests: the `tag_name || name`
field of `releases/latest`, and the first tag name of the `tags` fallback
(`none` modelling an empty tags array). -/
structure GitHubNet where
  releaseTag : Except Unit (Option String)
  tagsFirst : Except Unit (Option String)
deriving Repr

/-- One execution of the remote lookup of `getLatestTerraformVersionCached`:
try `releases/latest`; on failure fall back to `tags`, rethrowing when the
tags array is empty. Yields the normalized version field (possibly `none`). -/
def fetchLatestFromGitHub (net : GitHubNet) : Except Unit (Option String) :=
  match net.releaseTag with
  | .ok tag => .ok (normalizeVersion tag)
  | .error _ =>
    match net.tagsFirst with
    | .ok (some name) => .ok (normalizeVersion (some name))
    | .ok none => .error ()
    | .error _ => .error ()

/-- The remote-lookup tail of `getLatestTerraformVersionCached`, paired
with the lookup count 1; a `none` version becomes the
`Could not determine latest Terraform version` rejection, and the
best-effort `writeLatestCache` has no observable outcome here. -/
def lookupLatestRemote (net : GitHubNet) : Except Unit String × Nat :=
  match fetchLatestFromGitHub net with
  | .error _ => (.error (), 1)
  | .ok none => (.error (), 1)
  | .ok (some v) => (.ok v, 1)

/-- Model of `getLatestTerraformVersionCached`: result paired with the
number of remote lookup executions. The cached version is used only when
the record is readable, its version field truthy and the record fresh. -/
def getLatestTerraformVersionCached (f : LatestCacheFile) (net : GitHubNet) :
    Except Unit String × Nat :=
  match readLatestCache f with
  | some view =>
    match view.data with
    | some v => if v ≠ "" ∧ view.fresh = true then (.ok v, 0) else lookupLatestRemote net
    | none => lookupLatestRemote net
  | none => lookupLatestRemote net

/-! ## Process supervisor exit handler (src/index.js lines 117-124)

```js
child.on('exit', (code, signal) => {
  if (signal) {
    process.kill(process.pid, signal);
  } else {
    process.exit(code == null ? 1 : code);
  }
});
```
-/

/-- What the supervisor does when the child's `exit` event fires. -/
inductive SupervisorAction where
  | raiseSignal (sig : String)
  | exitWith (code : Int)
deriving DecidableEq, Repr

/-- Model of the `child.on('exit', ...)` handler: a non-null signal is
re-raised against the supervisor's own pid; otherwise the supervisor exits
with the child's code, defaulting to 1 only for a null code. -/
def onChildExit (code : Option Int) (signal : Option String) : SupervisorAction :=
  match signal with
  | some sig => .raiseSignal sig
  | none => .exitWith (match code with | none => 1 | some c => c)

/-! ## Cache manager (src/index.js, findCachedTerraform)

```js
function findCachedTerraform(desiredVersion) {
  const baseDir = path.join(os.homedir(), '.ntf');
  try {
    if (!fs.existsSync(baseDir)) return null;
    if (desiredVersion) {
      const candidate = path.join(baseDir, desiredVersion, 'terraform');
      if (fs.existsSync(candidate)) return candidate;
    }
    const entries = fs.readdirSync(baseDir, { withFileTypes: true })
      .filter((d) => d.isDirectory()).map((d) => d.name)
      .filter((name) => /\d+\.\d+\.\d+/.test(name));
    let best = null;
    for (const ver of entries) {
      const candidate = path.join(baseDir, ver, 'terraform');
      if (fs.existsSync(candidate)) {
        if (!best || compareSemver(ver, best.ver) > 0) best = { ver, path: candidate };
      }
    }
    return best ? best.path : null;
  } catch (_) { return null; }
}
```

The cache root is modelled as a listing of its children; `~/.ntf` stands
for `path.join(os.homedir(), '.ntf')`. -/

/-- One child of the cache root: its name, whether it is a directory, and
whether `<name>/terraform` exists inside it. -/
structure DirEntry where
  name : String
  isDir : Bool
  hasTerraform : Bool
deriving DecidableEq, Repr

/-- Observable state of the cache root. -/
structure CacheFS where
  rootExists : Bool
  entries : List DirEntry
deriving DecidableEq, Repr

/-- The fixed cache root, `path.join(os.homedir(), '.ntf')`. -/
def ntfBaseDir : String := "~/.ntf"

/-- The candidate path `path.join(baseDir, v, 'terraform')`. -/
def candidatePathFor (v : String) : String :=
  ntfBaseDir ++ "/" ++ v ++ "/terraform"

/-- Whether `fs.existsSync(path.join(baseDir, v, 'terraform'))` holds: some
directory child named `v` contains the binary. -/
def hasBinaryAt (fs : CacheFS) (v : String) : Bool :=
  fs.entries.any (fun e => e.name == v && e.isDir && e.hasTerraform)

/-- Model of the regex test `/\d+\.\d+\.\d+/.test(name)` at one position:
one or more digits, a dot, one or more digits, a dot, one or more digits. -/
def startsWithVersion (cs : List Char) : Bool :=
  let d1 := cs.takeWhile Char.isDigit
  let r1 := cs.dropWhile Char.isDigit
  if d1.isEmpty then false
  else
    match r1 with
    | '.' :: r2 =>
      let d2 := r2.takeWhile Char.isDigit
      let r3 := r2.dropWhile Char.isDigit
      if d2.isEmpty then false
      else
        match r3 with
        | '.' :: r4 => !(r4.takeWhile Char.isDigit).isEmpty
        | _ => false
    | _ => false

/-- Model of `/\d+\.\d+\.\d+/.test(name)`: the (unanchored) pattern matches
somewhere in the name. -/
def hasVersionPattern (s : String) : Bool :=
  s.data.tails.any startsWithVersion

/-- The filtered enumeration
`readdir().filter(isDirectory).map(name).filter(pattern)`. -/
def versionDirNames (fs : CacheFS) : List String :=
  ((fs.entries.filter (fun e => e.isDir)).map (fun e => e.name)).filter hasVersionPattern

/-- The `best`-tracking loop of `findCachedTerraform`: a candidate `v`
replaces the running best only when it has the binary and compares
strictly greater. -/
def pickBest (hb : String → Bool) : List String → Option String → Option String
  | [], best => best
  | v :: rest, best =>
    if hb v then
      match best with
      | none => pickBest hb rest (some v)
      | some b =>
        if compareSemver v b > 0 then pickBest hb rest (some v)
        else pickBest hb rest (some b)
    else pickBest hb rest best

/-- The enumeration branch of `findCachedTerraform` (no early desired-hit). -/
def searchBestCached (fs : CacheFS) : Option String :=
  (pickBest (fun v => hasBinaryAt fs v) (versionDirNames fs) none).map candidatePathFor

/-- Model of `findCachedTerraform(desiredVersion)`; a `some ""` desired
version is falsy in the source's `if (desiredVersion)` test, so it skips
the early-hit check just like `undefined`. The `try`/`catch` wrapper has no
failing operations in this filesystem model, so the function is total and
never errors. -/
def findCachedTerraform (fs : CacheFS) (desiredVersion : Option String) : Option String :=
  if fs.rootExists = false then none
  else
    match desiredVersion with
    | some v =>
      if v ≠ "" ∧ hasBinaryAt fs v = true then some (candidatePathFor v)
      else searchBestCached fs
    | none => searchBestCached fs

/-- The version directories that contain the binary — the candidates the
loop actually considers. -/
def cacheCandidates (fs : CacheFS) : List String :=
  (versionDirNames fs).filter (fun v => hasBinaryAt fs v)

example : hasVersionPattern "1.12.0" = true := by decide
example : hasVersionPattern "latest" = false := by decide
example :
    findCachedTerraform ⟨true, [⟨"1.2.3", true, true⟩, ⟨"1.10.0", true, true⟩]⟩ none =
      some "~/.ntf/1.10.0/terraform" := by decide

/-! ## Lemmas about the comparison loop -/

/-- Out-of-range components read as 0, like `pa[i] || 0` on `undefined`. -/
theorem compAt_oob (l : List (Option Int)) (i : Nat) (h : l.length ≤ i) :
    compAt l i = 0 := by
  unfold compAt
  rw [List.get?_eq_none.mpr h]

/-- Past both arrays the loop can only finish with 0. -/
theorem cmpFrom_zero_of_oob (pa pb : List (Option Int)) :
    ∀ fuel i, pa.length ≤ i → pb.length ≤ i → cmpFrom pa pb i fuel = 0 := by
  intro fuel
  induction fuel with
  | zero => intro i _ _; rfl
  | succ f ih =>
    intro i ha hb
    simp only [cmpFrom]
    rw [compAt_oob pa i ha, compAt_oob pb i hb]
    simpa using ih (i + 1) (by omega) (by omega)

/-- Extra fuel beyond both array lengths does not change the verdict. -/
theorem cmpFrom_fuel_stable (pa pb : List (Option Int)) :
    ∀ fuel k i, pa.length ≤ i + fuel → pb.length ≤ i + fuel →
      cmpFrom pa pb i (fuel + k) = cmpFrom pa pb i fuel := by
  intro fuel
  induction fuel with
  | zero =>
    intro k i ha hb
    rw [Nat.zero_add, cmpFrom_zero_of_oob pa pb k i (by omega) (by omega)]
    rfl
  | succ f ih =>
    intro k i ha hb
    have hshift : f + 1 + k = (f + k) + 1 := by omega
    rw [hshift]
    simp only [cmpFrom]
    by_cases h1 : compAt pa i > compAt pb i
    · rw [if_pos h1, if_pos h1]
    · rw [if_neg h1, if_neg h1]
      by_cases h2 : compAt pa i < compAt pb i
      · rw [if_pos h2, if_pos h2]
      · rw [if_neg h2, if_neg h2]
        exact ih k (i + 1) (by omega) (by omega)

/-- `compareSemver` equals the loop run with any sufficiently large fuel. -/
theorem compareSemver_eq_cmpFrom (a b : String) (N : Nat)
    (ha : (semverKey a).length ≤ N) (hb : (semverKey b).length ≤ N) :
    compareSemver a b =
      cmpFrom (semverKey a) (semverKey b) 0 N := by
  unfold compareSemver
  have hM : max (semverKey a).length (semverKey b).length ≤ N := by omega
  obtain ⟨k, hk⟩ := Nat.le.dest hM
  rw [← hk]
  exact (cmpFrom_fuel_stable (semverKey a) (semverKey b) _ k 0
    (by omega) (by omega)).symm

/-- The loop is reflexive. -/
theorem cmpFrom_refl (pa : List (Option Int)) :
    ∀ fuel i, cmpFrom pa pa i fuel = 0 := by
  intro fuel
  induction fuel with
  | zero => intro i; rfl
  | succ f ih =>
    intro i
    simp only [cmpFrom]
    rw [if_neg (lt_irrefl _), if_neg (lt_irrefl _)]
    exact ih (i + 1)

/-- Swapping the arrays negates the verdict. -/
theorem cmpFrom_antisymm (pa pb : List (Option Int)) :
    ∀ fuel i, cmpFrom pb pa i fuel = -(cmpFrom pa pb i fuel) := by
  intro fuel
  induction fuel with
  | zero => intro i; rfl
  | succ f ih =>
    intro i
    simp only [cmpFrom]
    by_cases h1 : compAt pb i > compAt pa i
    · rw [if_pos h1, if_neg (by omega : ¬compAt pa i > compAt pb i),
        if_pos (by omega : compAt pa i < compAt pb i)]
      decide
    · rw [if_neg h1]
      by_cases h2 : compAt pb i < compAt pa i
      · rw [if_pos h2, if_pos (by omega : compAt pa i > compAt pb i)]
      · rw [if_neg h2, if_neg (by omega : ¬compAt pa i > compAt pb i),
          if_neg (by omega : ¬compAt pa i < compAt pb i)]
        exact ih (i + 1)

/-- The loop verdict is transitive in the `≤ 0` direction. -/
theorem cmpFrom_trans_le (pa pb pc : List (Option Int)) :
    ∀ fuel i, cmpFrom pa pb i fuel ≤ 0 → cmpFrom pb pc i fuel ≤ 0 →
      cmpFrom pa pc i fuel ≤ 0 := by
  intro fuel
  induction fuel with
  | zero => intro i _ _; simp [cmpFrom]
  | succ f ih =>
    intro i hab hbc
    simp only [cmpFrom] at hab hbc ⊢
    by_cases h1 : compAt pa i > compAt pb i
    · rw [if_pos h1] at hab; omega
    · rw [if_neg h1] at hab
      by_cases h2 : compAt pb i > compAt pc i
      · rw [if_pos h2] at hbc; omega
      · rw [if_neg h2] at hbc
        by_cases h3 : compAt pa i > compAt pc i
        · exfalso; omega
        · rw [if_neg h3]
          by_cases h4 : compAt pa i < compAt pc i
          · rw [if_pos h4]; omega
          · rw [if_neg h4]
            have hac : compAt pa i = compAt pb i ∧ compAt pb i = compAt pc i := by
              constructor <;> omega
            rw [if_neg (by omega)] at hab
            rw [if_neg (by omega)] at hbc
            exact ih (i + 1) hab hbc

/-- The loop only looks at `compAt` values, so pointwise-equal arrays are
interchangeable. -/
theorem cmpFrom_congr (pa pa' pb pb' : List (Option Int))
    (hpa : ∀ j, compAt pa j = compAt pa' j)
    (hpb : ∀ j, compAt pb j = compAt pb' j) :
    ∀ fuel i, cmpFrom pa pb i fuel = cmpFrom pa' pb' i fuel := by
  intro fuel
  induction fuel with
  | zero => intro i; rfl
  | succ f ih =>
    intro i
    simp only [cmpFrom, hpa i, hpb i]
    by_cases h1 : compAt pa' i > compAt pb' i
    · rw [if_pos h1, if_pos h1]
    · rw [if_neg h1, if_neg h1]
      by_cases h2 : compAt pa' i < compAt pb' i
      · rw [if_pos h2, if_pos h2]
      · rw [if_neg h2, if_neg h2]
        exact ih (i + 1)

/-- All-zero arrays compare equal. -/
theorem cmpFrom_zero_of_allzero (pa pb : List (Option Int))
    (hpa : ∀ j, compAt pa j = 0) (hpb : ∀ j, compAt pb j = 0) :
    ∀ fuel i, cmpFrom pa pb i fuel = 0 := by
  intro fuel
  induction fuel with
  | zero => intro i; rfl
  | succ f ih =>
    intro i
    simp only [cmpFrom, hpa i, hpb i]
    rw [if_neg (lt_irrefl _), if_neg (lt_irrefl _)]
    exact ih (i + 1)

/-- String-level reflexivity of `compareSemver`. -/
theorem compareSemver_refl (s : String) : compareSemver s s = 0 := by
  unfold compareSemver
  exact cmpFrom_refl _ _ _

/-- String-level antisymmetry of `compareSemver`. -/
theorem compareSemver_antisymm (a b : String) :
    compareSemver b a = -(compareSemver a b) := by
  unfold compareSemver
  rw [Nat.max_comm]
  exact cmpFrom_antisymm _ _ _ _

/-- String-level transitivity of `compareSemver ≤ 0`. -/
theorem compareSemver_trans_le (a b c : String)
    (hab : compareSemver a b ≤ 0) (hbc : compareSemver b c ≤ 0) :
    compareSemver a c ≤ 0 := by
  set N := max (max (semverKey a).length (semverKey b).length)
    (semverKey c).length with hN
  rw [compareSemver_eq_cmpFrom a b N (by omega) (by omega)] at hab
  rw [compareSemver_eq_cmpFrom b c N (by omega) (by omega)] at hbc
  rw [compareSemver_eq_cmpFrom a c N (by omega) (by omega)]
  exact cmpFrom_trans_le _ _ _ N 0 hab hbc

/-! ## Lemmas about splitting and keys -/

/-- Splitting never yields an empty list of components. -/
theorem splitDot_ne_nil : ∀ cs : List Char, splitDot cs ≠ [] := by
  intro cs
  induction cs with
  | nil => simp [splitDot]
  | cons c cs ih =>
    simp only [splitDot]
    by_cases h : c = '.'
    · rw [if_pos h]; simp
    · rw [if_neg h]
      cases hs : splitDot cs with
      | nil => simp
      | cons a t => simp

/-- Splitting a string around an inserted dot splits the two halves. -/
theorem splitDot_append_dot :
    ∀ xs ys : List Char, splitDot (xs ++ '.' :: ys) = splitDot xs ++ splitDot ys := by
  intro xs ys
  induction xs with
  | nil => simp [splitDot]
  | cons c xs ih =>
    by_cases h : c = '.'
    · subst h
      simp only [List.cons_append, splitDot, if_pos rfl, List.append_eq]
      rw [ih]
      simp [splitDot]
    · simp only [List.cons_append, splitDot, if_neg h, List.append_eq]
      rw [ih]
      obtain ⟨a, t, hs⟩ : ∃ a t, splitDot xs = a :: t := by
        cases hs : splitDot xs with
        | nil => exact absurd hs (splitDot_ne_nil xs)
        | cons a t => exact ⟨a, t, rfl⟩
      rw [hs]
      simp

/-- Appending the component `.0` appends the entry `some 0` to the key. -/
theorem semverKey_append_dot_zero (s : String) :
    semverKey (s ++ ".0") = semverKey s ++ [some 0] := by
  unfold semverKey
  rw [String.data_append]
  have hdz : (".0" : String).data = '.' :: ['0'] := rfl
  rw [hdz, splitDot_append_dot]
  have h0 : parseIntChars ['0'] = some 0 := by decide
  simp [splitDot, h0]

/-- A trailing `some 0` entry never changes a loop read. -/
theorem compAt_append_zero (l : List (Option Int)) (i : Nat) :
    compAt (l ++ [some 0]) i = compAt l i := by
  unfold compAt
  by_cases h : i < l.length
  · rw [List.get?_append h]
  · rw [List.get?_eq_none.mpr (by omega : l.length ≤ i),
      List.get?_append_right (by omega : l.length ≤ i)]
    rcases hd : i - l.length with _ | n
    · simp
    · simp

/-! ## Claim C7 — missing trailing `.0` components compare equal -/

/-- C7: for every pair of version strings that differ only in a missing
trailing `.0` component, `compareSemver` returns 0 in both argument
orders — missing components are read as 0 — and in particular
`compareSemver "1.12" "1.12.0" = 0`. -/
theorem c7_trailing_zero_equal (s : String) :
    compareSemver s (s ++ ".0") = 0 ∧ compareSemver (s ++ ".0") s = 0 ∧
      compareSemver "1.12" "1.12.0" = 0 := by
  have hk := semverKey_append_dot_zero s
  have hc : ∀ j, compAt (semverKey s ++ [some 0]) j = compAt (semverKey s) j :=
    fun j => compAt_append_zero _ j
  refine ⟨?_, ?_, by decide⟩
  · unfold compareSemver
    rw [hk, cmpFrom_congr (semverKey s) (semverKey s) (semverKey s ++ [some 0])
      (semverKey s) (fun _ => rfl) hc]
    exact cmpFrom_refl _ _ _
  · unfold compareSemver
    rw [hk, cmpFrom_congr (semverKey s ++ [some 0]) (semverKey s) (semverKey s)
      (semverKey s) hc (fun _ => rfl)]
    exact cmpFrom_refl _ _ _

/-! ## Claim C9 — totality over arbitrary strings -/

/-- C9: `compareSemver` is total over arbitrary strings in the model, any
dot-separated component that does not parse as an integer is read as 0 by
the comparison loop, and a string all of whose components fail to parse
compares equal to `"0.0.0"` in both argument orders. -/
theorem c9_nonnumeric_zero :
    (∀ (s : String) (i : Nat) (c : List Char), (splitDot s.data).get? i = some c →
        parseIntChars c = none → compAt (semverKey s) i = 0) ∧
    (∀ s : String, (∀ c ∈ splitDot s.data, parseIntChars c = none) →
        compareSemver s "0.0.0" = 0 ∧ compareSemver "0.0.0" s = 0) := by
  constructor
  · intro s i c hget hparse
    unfold compAt semverKey
    rw [List.get?_map, hget]
    simp [hparse]
  · intro s hall
    have hzs : ∀ j, compAt (semverKey s) j = 0 := by
      intro j
      unfold compAt semverKey
      rw [List.get?_map]
      cases hg : (splitDot s.data).get? j with
      | none => simp
      | some c => simp [hall c (List.get?_mem hg)]
    have hz0 : ∀ j, compAt (semverKey "0.0.0") j = 0 := by
      intro j
      have hkey : semverKey "0.0.0" = [some 0, some 0, some 0] := by decide
      rw [hkey]
      unfold compAt
      rcases j with _ | _ | _ | n <;> rfl
    constructor
    · unfold compareSemver
      exact cmpFrom_zero_of_allzero _ _ hzs hz0 _ _
    · unfold compareSemver
      exact cmpFrom_zero_of_allzero _ _ hz0 hzs _ _

/-- Witness for C9 at concrete inputs: the all-alphabetic string
`"abc.def"` compares equal to `"0.0.0"`, and the lone non-numeric
component of `"x"` is read as 0. -/
theorem c9_nonnumeric_zero_witness :
    compareSemver "abc.def" "0.0.0" = 0 ∧ compAt (semverKey "x") 0 = 0 :=
  ⟨(c9_nonnumeric_zero.2 "abc.def" (by decide)).1,
   c9_nonnumeric_zero.1 "x" 0 ['x'] (by decide) (by decide)⟩

/-! ## Claim C8 — supervisor exit mirroring -/

/-- C8: on child exit the supervisor re-raises the child's terminating
signal against itself (never a plain exit) when a signal is present;
otherwise it exits with the child's exact code, defaulting to 1 only for a
null code — in particular a normal exit with code 2 yields exit code 2. -/
theorem c8_exit_mirroring :
    (∀ (code : Option Int) (sig : String),
        onChildExit code (some sig) = SupervisorAction.raiseSignal sig) ∧
    (∀ (code : Option Int) (sig : String) (c : Int),
        onChildExit code (some sig) ≠ SupervisorAction.exitWith c) ∧
    (∀ c : Int, onChildExit (some c) none = SupervisorAction.exitWith c) ∧
    onChildExit none none = SupervisorAction.exitWith 1 ∧
    onChildExit (some 2) none = SupervisorAction.exitWith 2 := by
  refine ⟨fun _ _ => rfl, fun _ _ _ h => ?_, fun _ => rfl, rfl, rfl⟩
  simp [onChildExit] at h

/-! ## Claim C3 — downloadTerraform failure handling -/

/-- An environment in which the archive fetch fails (and nothing else is
abnormal): the zip is not on disk, the platform is supported. -/
def dtFetchFailEnv : DtEnv :=
  { platformSupported := true, zipOnDisk := false, fetchOk := false,
    extractOk := true, binaryAfterExtract := true }

/-- Counterexample to C3: when the download step fails,
`downloadTerraform` does not reject to its caller — the `catch` inside it
calls `process.exit(1)` directly, so the top-level CLI catch handler never
sees the failure. -/
theorem c3_counterexample :
    downloadTerraformRun dtFetchFailEnv = ProcOutcome.exitProcess 1 ∧
      isRaise (downloadTerraformRun dtFetchFailEnv) = false := by
  exact ⟨rfl, rfl⟩

/-- C3 (amended): whenever a download or extraction step fails inside
provisioning (fetch reached and failing, extraction failing, or the binary
missing after extraction), `downloadTerraform` itself reports the error
and terminates the process with exit code 1; the failure never propagates
to `ensure`'s caller, though the process still exits non-zero. -/
theorem c3_exit_in_downloader (env : DtEnv)
    (h : (env.zipOnDisk = false ∧ env.fetchOk = false) ∨ env.extractOk = false ∨
      env.binaryAfterExtract = false) :
    downloadTerraformRun env = ProcOutcome.exitProcess 1 := by
  obtain ⟨ps, zd, fo, eo, ba⟩ := env
  cases ps <;> cases zd <;> cases fo <;> cases eo <;> cases ba <;>
    simp_all [downloadTerraformRun, runExtract]

/-- Witness for C3 (amended) at a concrete environment with a failing
extraction step. -/
theorem c3_exit_in_downloader_witness :
    downloadTerraformRun
      { platformSupported := true, zipOnDisk := false, fetchOk := true,
        extractOk := false, binaryAfterExtract := true } =
      ProcOutcome.exitProcess 1 :=
  c3_exit_in_downloader _ (Or.inr (Or.inl rfl))

/-! ## Claim C6 — freshness window of the latest-version cache -/

/-- C6: a readable cache record with a truthy version younger than one hour
is returned as-is with zero remote lookups; a missing, unparsable, falsy or
stale record triggers exactly one execution of the remote lookup procedure
(which internally consults the primary index and, on its failure, the tags
fallback, still within that one attempt). -/
theorem c6_fresh_cache_no_lookup :
    (∀ (f : LatestCacheFile) (net : GitHubNet) (v : String),
        f.present = true → f.parseOk = true → f.version = some v → v ≠ "" →
        f.ageMs < ONE_HOUR_MS →
        getLatestTerraformVersionCached f net = (Except.ok v, 0)) ∧
    (∀ (f : LatestCacheFile) (net : GitHubNet),
        (f.present = false ∨ f.parseOk = false ∨ f.version = none ∨
          f.version = some "" ∨ ONE_HOUR_MS ≤ f.ageMs) →
        (getLatestTerraformVersionCached f net).2 = 1) := by
  constructor
  · intro f net v hp hok hv hne hage
    obtain ⟨p, a, po, ver⟩ := f
    simp only at hp hok hv hage
    subst hp; subst hok; subst hv
    simp [getLatestTerraformVersionCached, readLatestCache, hne, hage]
  · intro f net h
    obtain ⟨p, a, po, ver⟩ := f
    have hcount : ∀ n : GitHubNet, (lookupLatestRemote n).2 = 1 := by
      intro n
      unfold lookupLatestRemote
      cases fetchLatestFromGitHub n with
      | error e => rfl
      | ok o => cases o <;> rfl
    cases p
    · simp [getLatestTerraformVersionCached, readLatestCache, hcount]
    · cases po
      · simp [getLatestTerraformVersionCached, readLatestCache, hcount]
      · rcases ver with _ | v
        · simp [getLatestTerraformVersionCached, readLatestCache, hcount]
        · have hv : v = "" ∨ ONE_HOUR_MS ≤ a := by
            simp only at h
            rcases h with h | h | h | h | h
            · exact absurd h (by simp)
            · exact absurd h (by simp)
            · exact absurd h (by simp)
            · exact Or.inl (Option.some.inj h)
            · exact Or.inr h
          have hcond : ¬(¬v = "" ∧ a < ONE_HOUR_MS) := by
            rcases hv with hv | hv
            · intro hh; exact hh.1 hv
            · intro hh; omega
          simp [getLatestTerraformVersionCached, readLatestCache, hcount, hcond]

/-- Witness for C6 at concrete states: a 5-minute-old record with version
1.13.3 is returned with zero lookups, and a 2-hour-old record triggers
exactly one lookup. -/
theorem c6_fresh_cache_no_lookup_witness :
    getLatestTerraformVersionCached
      { present := true, ageMs := 300000, parseOk := true, version := some "1.13.3" }
      { releaseTag := Except.ok (some "v1.13.3"), tagsFirst := Except.ok none } =
      (Except.ok "1.13.3", 0) ∧
    (getLatestTerraformVersionCached
      { present := true, ageMs := 7200000, parseOk := true, version := some "1.13.3" }
      { releaseTag := Except.ok (some "v1.13.3"), tagsFirst := Except.ok none }).2 = 1 :=
  ⟨c6_fresh_cache_no_lookup.1 _ _ "1.13.3" rfl rfl rfl (by decide) (by decide),
   c6_fresh_cache_no_lookup.2 _ _ (by right; right; right; right; decide)⟩

/-! ## Claims C1 and C2 — archive fetcher redirect and failure behaviour -/

/-- A redirect chain whose every element `downloadFile` follows can be
skipped: the result is that of the rest of the server behaviour. -/
theorem downloadFile_skip_redirects :
    ∀ (evs rest : List NetEvent), (∀ e ∈ evs, followedRedirect e = true) →
      downloadFile (evs ++ rest) = downloadFile rest := by
  intro evs
  induction evs with
  | nil => intro rest _; rfl
  | cons e evs ih =>
    intro rest hall
    have he : followedRedirect e = true := hall e (List.mem_cons_self e evs)
    cases e with
    | netError => simp [followedRedirect] at he
    | resp s loc body =>
      have hs : s = 302 ∨ s = 301 := by
        simp only [followedRedirect, Bool.and_eq_true, Bool.or_eq_true, beq_iff_eq] at he
        tauto
      simp only [List.cons_append, downloadFile, if_pos hs]
      exact ih rest (fun x hx => hall x (List.mem_cons_of_mem _ hx))

/-- A 303 response carrying a `Location` header, with a well-formed 200
continuation behind it. -/
def redirect303Chain : List NetEvent :=
  [NetEvent.resp 303 (some "https://example.invalid/next") [],
   NetEvent.resp 200 none [7, 8, 9]]

/-- Counterexample to C1: a 303 redirect response carrying a `Location`
header is not followed by `downloadFile` — the transfer is rejected as an
HTTP failure and the partial file deleted, instead of producing the bytes
of the final 200 response. -/
theorem c1_counterexample :
    downloadFile redirect303Chain = some (DlResult.errHttp 303, FileOutcome.absent) ∧
      downloadFile redirect303Chain ≠ some (DlResult.ok, FileOutcome.content [7, 8, 9]) := by
  exact ⟨rfl, by decide⟩

/-- C1 (amended): `downloadFile` follows only status 301 and 302
responses, recursively; for every chain of such redirects (each carrying a
`Location` header) ending in a 200 response, it resolves successfully and
the destination file contains exactly the bytes of the final response
body. Statuses 303, 307 and 308 are not followed: they take the non-200
failure branch. -/
theorem c1_redirects_followed :
    (∀ (evs : List NetEvent) (loc0 : Option String) (body : List Nat),
        (∀ e ∈ evs, followedRedirect e = true) →
        downloadFile (evs ++ [NetEvent.resp 200 loc0 body]) =
          some (DlResult.ok, FileOutcome.content body)) ∧
    (∀ (s : Nat) (loc : Option String) (body : List Nat) (rest : List NetEvent),
        (s = 303 ∨ s = 307 ∨ s = 308) →
        downloadFile (NetEvent.resp s loc body :: rest) =
          some (DlResult.errHttp s, FileOutcome.absent)) := by
  constructor
  · intro evs loc0 body hall
    rw [downloadFile_skip_redirects evs _ hall]
    simp [downloadFile]
  · intro s loc body rest hs
    have h1 : ¬(s = 302 ∨ s = 301) := by rcases hs with h | h | h <;> omega
    have h2 : s ≠ 200 := by rcases hs with h | h | h <;> omega
    simp only [downloadFile, if_neg h1, if_pos h2]

/-- Witness for C1 (amended): a 302 chain of length 3 ending in a 200
yields exactly the final body, and a 307 with a `Location` header is
rejected. -/
theorem c1_redirects_followed_witness :
    downloadFile
      ([NetEvent.resp 302 (some "a") [], NetEvent.resp 302 (some "b") [],
        NetEvent.resp 302 (some "c") []] ++ [NetEvent.resp 200 none [1, 2, 3]]) =
      some (DlResult.ok, FileOutcome.content [1, 2, 3]) ∧
    downloadFile (NetEvent.resp 307 (some "u") [] :: []) =
      some (DlResult.errHttp 307, FileOutcome.absent) :=
  ⟨c1_redirects_followed.1 _ none [1, 2, 3] (by decide),
   c1_redirects_followed.2 307 (some "u") [] [] (by tauto)⟩

/-- C2: after any followed redirect prefix, a terminal response with a
non-2xx status (other than the followed 301/302) rejects with the HTTP
failure carrying that status and leaves no file at the destination, and a
network-level failure at any point rejects likewise with no file left. -/
theorem c2_failure_deletes_file :
    (∀ (evs : List NetEvent) (s : Nat) (loc : Option String) (body : List Nat)
        (rest : List NetEvent),
        (∀ e ∈ evs, followedRedirect e = true) →
        ¬(200 ≤ s ∧ s < 300) → s ≠ 301 → s ≠ 302 →
        downloadFile (evs ++ NetEvent.resp s loc body :: rest) =
          some (DlResult.errHttp s, FileOutcome.absent)) ∧
    (∀ (evs rest : List NetEvent),
        (∀ e ∈ evs, followedRedirect e = true) →
        downloadFile (evs ++ NetEvent.netError :: rest) =
          some (DlResult.errNet, FileOutcome.absent)) := by
  constructor
  · intro evs s loc body rest hall h2xx h301 h302
    rw [downloadFile_skip_redirects evs _ hall]
    have h1 : ¬(s = 302 ∨ s = 301) := by tauto
    have h2 : s ≠ 200 := by omega
    simp only [downloadFile, if_neg h1]
    exact if_pos h2 ▸ rfl
  · intro evs rest hall
    rw [downloadFile_skip_redirects evs _ hall]
    rfl

/-- Witness for C2: a direct 404 rejects with no file left, and a network
failure after one followed 302 likewise. -/
theorem c2_failure_deletes_file_witness :
    downloadFile ([] ++ NetEvent.resp 404 none [] :: []) =
      some (DlResult.errHttp 404, FileOutcome.absent) ∧
    downloadFile ([NetEvent.resp 302 (some "u") []] ++ NetEvent.netError :: []) =
      some (DlResult.errNet, FileOutcome.absent) :=
  ⟨c2_failure_deletes_file.1 [] 404 none [] [] (by decide) (by omega)
      (by decide) (by decide),
   c2_failure_deletes_file.2 [NetEvent.resp 302 (some "u") []] [] (by decide)⟩

/-! ## Lemmas about ASCII lowering and the mapper -/

/-- Small code points survive the `Char.ofNat` round trip. -/
theorem charOfNat_toNat_small (n : Nat) (h : n < 55296) : (Char.ofNat n).toNat = n := by
  have hv : n.isValidChar := Or.inl h
  simp [Char.ofNat, hv]
  rfl

/-- Lowering a character twice is the same as lowering it once. -/
theorem lowerChar_idem (c : Char) : lowerChar (lowerChar c) = lowerChar c := by
  unfold lowerChar
  by_cases h : 65 ≤ c.toNat ∧ c.toNat ≤ 90
  · rw [if_pos h]
    have ht : (Char.ofNat (c.toNat + 32)).toNat = c.toNat + 32 :=
      charOfNat_toNat_small _ (by omega)
    rw [if_neg (by omega)]
  · rw [if_neg h, if_neg h]

/-- Lowering a string twice is the same as lowering it once. -/
theorem toLowerCaseJs_idem (s : String) :
    toLowerCaseJs (toLowerCaseJs s) = toLowerCaseJs s := by
  show String.mk ((s.data.map lowerChar).map lowerChar) = String.mk (s.data.map lowerChar)
  rw [List.map_map]
  have hcomp : lowerChar ∘ lowerChar = lowerChar := funext lowerChar_idem
  rw [hcomp]

/-- The OS switch succeeds on a pre-lowered input exactly as on the
original (only the echoed argument of the failure message differs). -/
theorem mapOS_lower_ok_iff (s t0 : String) :
    mapOS (toLowerCaseJs s) = .ok t0 ↔ mapOS s = .ok t0 := by
  unfold mapOS
  rw [toLowerCaseJs_idem]
  split_ifs <;> simp

/-- The architecture switch succeeds on a pre-lowered input exactly as on
the original. -/
theorem mapArch_lower_ok_iff (s t0 : String) :
    mapArch (toLowerCaseJs s) = .ok t0 ↔ mapArch s = .ok t0 := by
  unfold mapArch
  rw [toLowerCaseJs_idem]
  split_ifs <;> simp

/-- The mapper succeeds exactly when both switches succeed on the
respective components. -/
theorem mapPair_eq_ok_iff (dos darch : String) (t : PlatformTarget) :
    mapOSArchToTerraform dos darch = .ok t ↔
      mapOS dos = .ok t.os ∧ mapArch darch = .ok t.arch := by
  obtain ⟨tos, tarch⟩ := t
  cases h1 : mapOS dos <;> cases h2 : mapArch darch <;>
    simp [mapOSArchToTerraform, h1, h2]

/-- Success results of the mapper agree between an input pair and its
lowercased form. -/
theorem mapPair_lower_ok_iff (dos darch : String) (t : PlatformTarget) :
    mapOSArchToTerraform dos darch = .ok t ↔
      mapOSArchToTerraform (toLowerCaseJs dos) (toLowerCaseJs darch) = .ok t := by
  rw [mapPair_eq_ok_iff, mapPair_eq_ok_iff, mapOS_lower_ok_iff, mapArch_lower_ok_iff]

/-! ## Claim C4 — the mapping table is exact and total -/

/-- C4: every `(os, arch)` pair of the mapping table maps to exactly the
listed target pair; an input whose lowercased OS is outside the OS table
throws the unsupported-operating-system error, and one with a supported OS
but a lowercased architecture outside the architecture table throws the
unsupported-architecture error — never a default. -/
theorem c4_mapping_table :
    (∀ p ∈ osTablePairs, ∀ q ∈ archTablePairs,
        mapOSArchToTerraform p.1 q.1 = .ok ⟨p.2, q.2⟩) ∧
    (∀ dos darch : String, toLowerCaseJs dos ∉ osKeys →
        mapOSArchToTerraform dos darch =
          .error ("Unsupported operating system: " ++ dos)) ∧
    (∀ dos darch : String, toLowerCaseJs dos ∈ osKeys → toLowerCaseJs darch ∉ archKeys →
        mapOSArchToTerraform dos darch =
          .error ("Unsupported architecture: " ++ darch)) := by
  refine ⟨?_, ?_, ?_⟩
  · intro p hp q hq
    fin_cases hp <;> fin_cases hq <;> rfl
  · intro dos darch h
    simp only [osKeys, osTablePairs, List.map_cons, List.map_nil, List.mem_cons,
      List.not_mem_nil, or_false, not_or] at h
    obtain ⟨h1, h2, h3, h4, h5, h6, h7⟩ := h
    simp [mapOSArchToTerraform, mapOS, h1, h2, h3, h4, h5, h6, h7]
  · intro dos darch hos harch
    simp only [archKeys, archTablePairs, List.map_cons, List.map_nil, List.mem_cons,
      List.not_mem_nil, or_false, not_or] at harch
    obtain ⟨a1, a2, a3, a4, a5, a6, a7⟩ := harch
    have harchE : mapArch darch = .error ("Unsupported architecture: " ++ darch) := by
      simp [mapArch, a1, a2, a3, a4, a5, a6, a7]
    simp only [osKeys, osTablePairs, List.map_cons, List.map_nil, List.mem_cons,
      List.not_mem_nil, or_false] at hos
    rcases hos with h | h | h | h | h | h | h <;>
      simp [mapOSArchToTerraform, mapOS, h, harchE]

/-- Witness for C4: one supported pair maps to its listed target, an
unsupported OS throws the OS error, and a supported OS with an unsupported
architecture throws the architecture error. -/
theorem c4_mapping_table_witness :
    mapOSArchToTerraform "macos" "aarch64" = .ok ⟨"darwin", "arm64"⟩ ∧
    mapOSArchToTerraform "beos" "x64" =
      .error ("Unsupported operating system: " ++ "beos") ∧
    mapOSArchToTerraform "linux" "mips" =
      .error ("Unsupported architecture: " ++ "mips") :=
  ⟨c4_mapping_table.1 ("macos", "darwin") (by decide) ("aarch64", "arm64") (by decide),
   c4_mapping_table.2.1 "beos" "x64" (by decide),
   c4_mapping_table.2.2 "linux" "mips" (by decide) (by decide)⟩

/-! ## Claim C10 — case-insensitivity of the mapper -/

/-- C10: the mapper is case-insensitive in both arguments — an input pair
and its lowercased form succeed with exactly the same target and fail
together (the thrown message echoes the original argument, which is the
only difference on failures) — and each capitalized name produced by the
OS detector maps exactly as its lowercase form, for every architecture
argument. -/
theorem c10_case_insensitive :
    (∀ (dos darch : String) (t : PlatformTarget),
        mapOSArchToTerraform dos darch = .ok t ↔
          mapOSArchToTerraform (toLowerCaseJs dos) (toLowerCaseJs darch) = .ok t) ∧
    (∀ (dos darch : String),
        (mapOSArchToTerraform dos darch).isOk =
          (mapOSArchToTerraform (toLowerCaseJs dos) (toLowerCaseJs darch)).isOk) ∧
    (∀ p ∈ detectorOSNames, ∀ darch : String,
        mapOSArchToTerraform p.1 darch = mapOSArchToTerraform p.2 darch) := by
  refine ⟨mapPair_lower_ok_iff, ?_, ?_⟩
  · intro dos darch
    cases h1 : mapOSArchToTerraform dos darch with
    | ok t =>
      rw [(mapPair_lower_ok_iff dos darch t).mp h1]
    | error e =>
      cases h2 : mapOSArchToTerraform (toLowerCaseJs dos) (toLowerCaseJs darch) with
      | ok t =>
        have := (mapPair_lower_ok_iff dos darch t).mpr h2
        rw [this] at h1
        cases h1
      | error e2 => rfl
  · intro p hp darch
    fin_cases hp <;> rfl

/-- Witness for C10 at concrete inputs: the detector name `macOS` maps as
`macos` does. -/
theorem c10_case_insensitive_witness :
    mapOSArchToTerraform "macOS" "x64" = mapOSArchToTerraform "macos" "x64" ∧
    (mapOSArchToTerraform "WINDOWS" "ARM64" = .ok ⟨"windows", "arm64"⟩ ↔
      mapOSArchToTerraform (toLowerCaseJs "WINDOWS") (toLowerCaseJs "ARM64") =
        .ok ⟨"windows", "arm64"⟩) :=
  ⟨c10_case_insensitive.2.2 ("macOS", "macos") (by decide) "x64",
   c10_case_insensitive.1 "WINDOWS" "ARM64" ⟨"windows", "arm64"⟩⟩

/-! ## Lemmas about the best-version loop -/

/-- The running best only ever improves: the final pick compares at least
as high as any starting value. -/
theorem pickBest_start_le (hb : String → Bool) :
    ∀ (l : List String) (c v : String), pickBest hb l (some c) = some v →
      compareSemver c v ≤ 0 := by
  intro l
  induction l with
  | nil =>
    intro c v h
    simp only [pickBest, Option.some.injEq] at h
    subst h
    rw [compareSemver_refl]
  | cons x l ih =>
    intro c v h
    simp only [pickBest] at h
    by_cases hx : hb x = true
    · rw [if_pos hx] at h
      by_cases hcmp : compareSemver x c > 0
      · rw [if_pos hcmp] at h
        have hxv : compareSemver x v ≤ 0 := ih x v h
        have hcx : compareSemver c x ≤ 0 := by
          rw [compareSemver_antisymm]
          omega
        exact compareSemver_trans_le c x v hcx hxv
      · rw [if_neg hcmp] at h
        exact ih c v h
    · rw [if_neg hx] at h
      exact ih c v h

/-- The final pick is the start value or a list element passing the check. -/
theorem pickBest_mem (hb : String → Bool) :
    ∀ (l : List String) (b : Option String) (v : String), pickBest hb l b = some v →
      b = some v ∨ (v ∈ l ∧ hb v = true) := by
  intro l
  induction l with
  | nil => intro b v h; exact Or.inl h
  | cons x l ih =>
    intro b v h
    rcases b with _ | c <;> simp only [pickBest] at h
    · by_cases hx : hb x = true
      · rw [if_pos hx] at h
        rcases ih (some x) v h with hxv | ⟨hmem, hbv⟩
        · exact Or.inr ⟨(Option.some.inj hxv) ▸ List.mem_cons_self x l,
            (Option.some.inj hxv) ▸ hx⟩
        · exact Or.inr ⟨List.mem_cons_of_mem x hmem, hbv⟩
      · rw [if_neg hx] at h
        rcases ih none v h with hbv | ⟨hmem, hbv⟩
        · exact Or.inl hbv
        · exact Or.inr ⟨List.mem_cons_of_mem x hmem, hbv⟩
    · by_cases hx : hb x = true
      · rw [if_pos hx] at h
        by_cases hcmp : compareSemver x c > 0
        · rw [if_pos hcmp] at h
          rcases ih (some x) v h with hxv | ⟨hmem, hbv⟩
          · exact Or.inr ⟨(Option.some.inj hxv) ▸ List.mem_cons_self x l,
              (Option.some.inj hxv) ▸ hx⟩
          · exact Or.inr ⟨List.mem_cons_of_mem x hmem, hbv⟩
        · rw [if_neg hcmp] at h
          rcases ih (some c) v h with hcv | ⟨hmem, hbv⟩
          · exact Or.inl hcv
          · exact Or.inr ⟨List.mem_cons_of_mem x hmem, hbv⟩
      · rw [if_neg hx] at h
        rcases ih (some c) v h with hbv | ⟨hmem, hbv⟩
        · exact Or.inl hbv
        · exact Or.inr ⟨List.mem_cons_of_mem x hmem, hbv⟩

/-- The final pick dominates every list element passing the check. -/
theorem pickBest_max (hb : String → Bool) :
    ∀ (l : List String) (b : Option String) (v : String), pickBest hb l b = some v →
      ∀ w ∈ l, hb w = true → compareSemver w v ≤ 0 := by
  intro l
  induction l with
  | nil => intro b v _ w hw; cases hw
  | cons x l ih =>
    intro b v h w hw hbw
    rcases b with _ | c <;> simp only [pickBest] at h <;>
      rcases List.mem_cons.mp hw with rfl | hw'
    · rw [if_pos hbw] at h
      exact pickBest_start_le hb l w v h
    · by_cases hx : hb x = true
      · rw [if_pos hx] at h
        exact ih (some x) v h w hw' hbw
      · rw [if_neg hx] at h
        exact ih none v h w hw' hbw
    · rw [if_pos hbw] at h
      by_cases hcmp : compareSemver w c > 0
      · rw [if_pos hcmp] at h
        exact pickBest_start_le hb l w v h
      · rw [if_neg hcmp] at h
        have hcv : compareSemver c v ≤ 0 := pickBest_start_le hb l c v h
        exact compareSemver_trans_le w c v (by omega) hcv
    · by_cases hx : hb x = true
      · rw [if_pos hx] at h
        by_cases hcmp : compareSemver x c > 0
        · rw [if_pos hcmp] at h
          exact ih (some x) v h w hw' hbw
        · rw [if_neg hcmp] at h
          exact ih (some c) v h w hw' hbw
      · rw [if_neg hx] at h
        exact ih (some c) v h w hw' hbw

/-- Starting from a value, the loop always returns a value. -/
theorem pickBest_isSome_start (hb : String → Bool) :
    ∀ (l : List String) (c : String), (pickBest hb l (some c)).isSome = true := by
  intro l
  induction l with
  | nil => intro c; rfl
  | cons x l ih =>
    intro c
    simp only [pickBest]
    by_cases hx : hb x = true
    · rw [if_pos hx]
      by_cases hcmp : compareSemver x c > 0
      · rw [if_pos hcmp]; exact ih x
      · rw [if_neg hcmp]; exact ih c
    · rw [if_neg hx]
      exact ih c

/-- Some element passing the check makes the loop return a value. -/
theorem pickBest_isSome (hb : String → Bool) :
    ∀ l : List String, (∃ v ∈ l, hb v = true) →
      (pickBest hb l none).isSome = true := by
  intro l
  induction l with
  | nil => rintro ⟨v, hv, _⟩; cases hv
  | cons x l ih =>
    rintro ⟨v, hv, hbv⟩
    simp only [pickBest]
    by_cases hx : hb x = true
    · rw [if_pos hx]
      exact pickBest_isSome_start hb l x
    · rw [if_neg hx]
      rcases List.mem_cons.mp hv with rfl | hv'
      · exact absurd hbv hx
      · exact ih ⟨v, hv', hbv⟩

/-- No element passing the check leaves the loop empty-handed. -/
theorem pickBest_none (hb : String → Bool) :
    ∀ l : List String, (∀ v ∈ l, hb v = false) → pickBest hb l none = none := by
  intro l
  induction l with
  | nil => intro _; rfl
  | cons x l ih =>
    intro hall
    simp only [pickBest]
    rw [if_neg (by simp [hall x (List.mem_cons_self x l)])]
    exact ih (fun v hv => hall v (List.mem_cons_of_mem x hv))

/-! ## Claim C5 — best-available cache lookup -/

/-- When the desired-version early check cannot hit, the lookup falls
through to the enumeration branch. -/
theorem findCached_eq_search (fs : CacheFS) (desired : Option String)
    (hroot : fs.rootExists = true)
    (hmiss : ∀ v, desired = some v → v ≠ "" → hasBinaryAt fs v = false) :
    findCachedTerraform fs desired = searchBestCached fs := by
  unfold findCachedTerraform
  rw [if_neg (by simp [hroot])]
  cases desired with
  | none => rfl
  | some v =>
    have hcond : ¬(v ≠ "" ∧ hasBinaryAt fs v = true) := by
      rintro ⟨h1, h2⟩
      rw [hmiss v rfl h1] at h2
      exact Bool.false_ne_true h2
    show (if v ≠ "" ∧ hasBinaryAt fs v = true then some (candidatePathFor v)
      else searchBestCached fs) = searchBestCached fs
    rw [if_neg hcond]

/-- C5: with no desired version (or a desired version whose binary is not
cached), `findCachedTerraform` enumerates the directory children of the
cache root whose names contain a three-component numeric version pattern,
keeps those containing the `terraform` binary, and returns the candidate
path of a version dominating all of them under `compareSemver`; an absent
cache root or an empty candidate set yields `null` — the model is a total
function, so no error is possible. -/
theorem c5_best_cached (fs : CacheFS) (desired : Option String)
    (hmiss : ∀ v, desired = some v → v ≠ "" → hasBinaryAt fs v = false) :
    (fs.rootExists = false → findCachedTerraform fs desired = none) ∧
    (fs.rootExists = true → cacheCandidates fs = [] →
      findCachedTerraform fs desired = none) ∧
    (fs.rootExists = true → cacheCandidates fs ≠ [] →
      ∃ v ∈ cacheCandidates fs,
        findCachedTerraform fs desired = some (candidatePathFor v) ∧
        ∀ w ∈ cacheCandidates fs, compareSemver w v ≤ 0) := by
  refine ⟨?_, ?_, ?_⟩
  · intro hroot
    unfold findCachedTerraform
    rw [if_pos hroot]
  · intro hroot hnone
    rw [findCached_eq_search fs desired hroot hmiss]
    unfold searchBestCached
    have hall : ∀ v ∈ versionDirNames fs, hasBinaryAt fs v = false := by
      intro v hv
      cases hcs : hasBinaryAt fs v
      · rfl
      · exfalso
        have hvmem : v ∈ cacheCandidates fs := List.mem_filter.mpr ⟨hv, hcs⟩
        rw [hnone] at hvmem
        cases hvmem
    rw [pickBest_none _ _ hall]
    rfl
  · intro hroot hne
    obtain ⟨v0, hv0⟩ := List.exists_mem_of_ne_nil _ hne
    have hv0' := List.mem_filter.mp hv0
    have hsome := pickBest_isSome (fun v => hasBinaryAt fs v) (versionDirNames fs)
      ⟨v0, hv0'.1, hv0'.2⟩
    obtain ⟨v, hv⟩ := Option.isSome_iff_exists.mp hsome
    rcases pickBest_mem _ _ _ _ hv with hcontra | ⟨hmemn, hbv⟩
    · exact Option.noConfusion hcontra
    · refine ⟨v, List.mem_filter.mpr ⟨hmemn, hbv⟩, ?_, ?_⟩
      · rw [findCached_eq_search fs desired hroot hmiss]
        unfold searchBestCached
        rw [hv]
        rfl
      · intro w hw
        have hw' := List.mem_filter.mp hw
        exact pickBest_max _ _ _ _ hv w hw'.1 hw'.2

/-- A concrete cache root with two complete version directories and one
non-version directory. -/
def demoCacheFS : CacheFS :=
  ⟨true, [⟨"1.2.3", true, true⟩, ⟨"1.10.0", true, true⟩, ⟨"notes", true, false⟩]⟩

/-- Witness for C5: on the concrete cache state the lookup returns the
path of a dominating version, and an absent cache root yields `null`. -/
theorem c5_best_cached_witness :
    (∃ v ∈ cacheCandidates demoCacheFS,
      findCachedTerraform demoCacheFS none = some (candidatePathFor v) ∧
      ∀ w ∈ cacheCandidates demoCacheFS, compareSemver w v ≤ 0) ∧
    findCachedTerraform ⟨false, []⟩ none = none :=
  ⟨(c5_best_cached demoCacheFS none (fun _ hv => nomatch hv)).2.2 rfl (by decide),
   (c5_best_cached ⟨false, []⟩ none (fun _ hv => nomatch hv)).1 rfl⟩
